import Mathlib

/-!
A shallow embedding of the `pgwire` repository's startup-phase message codec
(`src/messages/startup.rs`) and portal logic (`src/api/portal.rs`), together
with proofs about the specification's claims.

Bytes are modelled as natural numbers below 256; buffers as lists of bytes.
Rust `u16`/`i32` fields are modelled by their unsigned bit pattern (a `Nat`
below `2^16` / `2^32`); no arithmetic other than encoding is performed on
them, so the bit-pattern view is exact.
-/

abbrev Bytes := List Nat

/-- Big-endian encoding of a `u16` bit pattern (bytes::BufMut::put_u16). -/
def putU16 (n : Nat) : Bytes := [n / 256 % 256, n % 256]

/-- Big-endian encoding of a `u32`/`i32` bit pattern (bytes::BufMut::put_i32). -/
def putU32 (n : Nat) : Bytes :=
  [n / 16777216 % 256, n / 65536 % 256, n / 256 % 256, n % 256]

/-- Big-endian read of 4 bytes (bytes::Buf::get_i32 as a bit pattern);
`none` when fewer than 4 bytes remain, which makes the Rust call panic. -/
def getU32? : Bytes → Option (Nat × Bytes)
  | b0 :: b1 :: b2 :: b3 :: rest =>
      some ((((b0 * 256 + b1) * 256 + b2) * 256 + b3), rest)
  | _ => none

theorem getU32_putU32 (n : Nat) (r : Bytes) (h : n < 4294967296) :
    getU32? (putU32 n ++ r) = some (n, r) := by
  simp only [putU32, List.cons_append, List.nil_append, getU32?]
  refine congrArg some (Prod.ext ?_ rfl)
  simp only
  omega

/-- Scan a buffer for the first zero byte: returns the bytes before it and
the bytes after it (both the scan and the zero byte are consumed).  If the
buffer holds no zero byte the whole buffer is returned as the string. -/
def splitCstr : Bytes → Bytes × Bytes
  | [] => ([], [])
  | 0 :: rest => ([], rest)
  | b :: rest =>
      let p := splitCstr rest
      (b :: p.1, p.2)

/-- Modelled from the spec: `codec::put_cstring` (src/src/messages/codec.rs
is not in the repository snapshot).  Per the spec's framing rules,
"C-strings are NUL-terminated UTF-8": the string's bytes are appended,
followed by a terminating zero byte. -/
def put_cstring (s : Bytes) : Bytes := s ++ [0]

/-- Modelled from the spec: `codec::get_cstring` (src/src/messages/codec.rs
is not in the repository snapshot).  Reads one NUL-terminated string and
consumes it together with its terminator, returning `none` for the empty
string — `Startup::decode_body` relies on that to detect the final
terminating zero of the parameter list. -/
def get_cstring (buf : Bytes) : Option Bytes × Bytes :=
  let p := splitCstr buf
  (if p.1.isEmpty then none else some p.1, p.2)

theorem splitCstr_append (s r : Bytes) (h : ∀ b ∈ s, b ≠ 0) :
    splitCstr (s ++ 0 :: r) = (s, r) := by
  induction s with
  | nil => rfl
  | cons b t ih =>
      have hb : b ≠ 0 := h b (List.mem_cons_self b t)
      have ht : ∀ x ∈ t, x ≠ 0 := fun x hx => h x (List.mem_cons_of_mem b hx)
      cases b with
      | zero => exact absurd rfl hb
      | succ b' =>
          simp only [List.cons_append, splitCstr, List.append_eq, ih ht]

theorem get_cstring_append (s r : Bytes) (hne : s ≠ []) (h : ∀ b ∈ s, b ≠ 0) :
    get_cstring (s ++ 0 :: r) = (some s, r) := by
  simp only [get_cstring, splitCstr_append s r h]
  simp [List.isEmpty_iff, hne]

theorem get_cstring_zero (r : Bytes) : get_cstring (0 :: r) = (none, r) := rfl

/-- Combined form used for decoding one cstring whether or not it is empty:
the value read is the original string (an empty string decodes as `none`
which callers replace by the empty string via `unwrap_or`). -/
theorem get_cstring_value (s r : Bytes) (h : ∀ b ∈ s, b ≠ 0) :
    (get_cstring (s ++ 0 :: r)).1.getD [] = s ∧ (get_cstring (s ++ 0 :: r)).2 = r := by
  cases s with
  | nil => simp [get_cstring_zero]
  | cons b t =>
      rw [get_cstring_append (b :: t) r (by simp) h]
      exact ⟨rfl, rfl⟩

/-!
The `BTreeMap<String, String>` holding startup parameters is modelled as an
association list of byte strings kept strictly sorted by key in the
byte-lexicographic order (Rust's `Ord` on `String` compares UTF-8 bytes);
`insertB` is `BTreeMap::insert`, which replaces the value of an existing key.
-/

/-- Byte-lexicographic strict order on byte strings (Rust `String` `Ord`). -/
def bytesLtB : Bytes → Bytes → Bool
  | [], [] => false
  | [], _ :: _ => true
  | _ :: _, [] => false
  | a :: as, b :: bs => a < b || (a == b && bytesLtB as bs)

/-- Sorted-insert with replacement: `BTreeMap::insert` on the sorted-list model. -/
def insertB (k v : Bytes) : List (Bytes × Bytes) → List (Bytes × Bytes)
  | [] => [(k, v)]
  | (k', v') :: t =>
      if bytesLtB k k' then (k, v) :: (k', v') :: t
      else if k = k' then (k, v) :: t
      else (k', v') :: insertB k v t

/-- Strict sortedness of the key sequence, as a boolean. -/
def pairwiseLtB : List (Bytes × Bytes) → Bool
  | [] => true
  | a :: t => (t.all fun b => bytesLtB a.1 b.1) && pairwiseLtB t

theorem bytesLtB_irrefl (s : Bytes) : bytesLtB s s = false := by
  induction s with
  | nil => rfl
  | cons b t ih => simp [bytesLtB, ih]

theorem bytesLtB_asymm (a b : Bytes) (h : bytesLtB a b = true) :
    bytesLtB b a = false := by
  induction a generalizing b with
  | nil => cases b with
    | nil => simp [bytesLtB] at h
    | cons x xs => rfl
  | cons x xs ih =>
      cases b with
      | nil => simp [bytesLtB] at h
      | cons y ys =>
          simp only [bytesLtB, Bool.or_eq_true, Bool.and_eq_true, beq_iff_eq,
            decide_eq_true_eq] at h
          by_cases hyx : y = x
          · subst hyx
            have hlt : bytesLtB ys xs = false := by
              rcases h with h | ⟨_, h⟩
              · omega
              · exact ih ys h
            simp [bytesLtB, hlt]
          · have hxy : x < y := by
              rcases h with h | ⟨rfl, _⟩
              · exact h
              · exact absurd rfl hyx
            have h1 : ¬ y < x := by omega
            simp [bytesLtB, hyx, h1]

theorem bytesLtB_ne (a b : Bytes) (h : bytesLtB a b = true) : a ≠ b := by
  intro he
  subst he
  rw [bytesLtB_irrefl] at h
  exact Bool.false_ne_true h

/-- Inserting a key greater than every key present appends at the end. -/
theorem insertB_gt (k v : Bytes) (l : List (Bytes × Bytes))
    (h : ∀ kv ∈ l, bytesLtB kv.1 k = true) :
    insertB k v l = l ++ [(k, v)] := by
  induction l with
  | nil => rfl
  | cons p t ih =>
      have hp : bytesLtB p.1 k = true := h p (List.mem_cons_self p t)
      have ht : ∀ kv ∈ t, bytesLtB kv.1 k = true :=
        fun kv hkv => h kv (List.mem_cons_of_mem p hkv)
      obtain ⟨k', v'⟩ := p
      have hlt : bytesLtB k k' = false := bytesLtB_asymm k' k hp
      have hne : k ≠ k' := Ne.symm (bytesLtB_ne k' k hp)
      simp [insertB, hlt, hne, ih ht]

/-- Folding `BTreeMap::insert` over pairs whose keys all exceed the keys
accumulated so far, with the pairs themselves strictly sorted, appends them
in order. -/
theorem foldl_insertB (ps acc : List (Bytes × Bytes))
    (hp : pairwiseLtB ps = true)
    (hacc : ∀ kv ∈ acc, ∀ q ∈ ps, bytesLtB kv.1 q.1 = true) :
    ps.foldl (fun a kv => insertB kv.1 kv.2 a) acc = acc ++ ps := by
  induction ps generalizing acc with
  | nil => simp
  | cons p t ih =>
      simp only [pairwiseLtB, Bool.and_eq_true, List.all_eq_true] at hp
      obtain ⟨hhead, htail⟩ := hp
      have h1 : insertB p.1 p.2 acc = acc ++ [p] := by
        have := insertB_gt p.1 p.2 acc
          (fun kv hkv => hacc kv hkv p (List.mem_cons_self p t))
        simpa using this
      simp only [List.foldl_cons, h1]
      have h2 : ∀ kv ∈ acc ++ [p], ∀ q ∈ t, bytesLtB kv.1 q.1 = true := by
        intro kv hkv q hq
        rcases List.mem_append.mp hkv with hkv | hkv
        · exact hacc kv hkv q (List.mem_cons_of_mem p hq)
        · rcases List.mem_singleton.mp hkv with rfl
          exact hhead q hq
      rw [ih (acc ++ [p]) htail h2, List.append_assoc, List.singleton_append]

/-- Inserting the same key twice keeps only the second value. -/
theorem insertB_same (k v1 v2 : Bytes) :
    insertB k v2 (insertB k v1 []) = [(k, v2)] := by
  simp [insertB, bytesLtB_irrefl]

/-!
Message bodies.  Decoding returns a `DecRes`: `ok` for `Ok(..)`,
`protocolError` for a refused frame (an `Err(..)` at the framing layer), and
`panic` for a Rust panic (`unreachable!()` or a buffer underflow inside the
`bytes` crate).
-/

inductive DecRes (α : Type) where
  | ok : α → DecRes α
  | protocolError : DecRes α
  | panic : DecRes α
deriving DecidableEq, Repr

def DecRes.andThen {α : Type} (r : DecRes Bytes) (f : Bytes → DecRes α) : DecRes α :=
  match r with
  | .ok b => f b
  | .protocolError => .protocolError
  | .panic => .panic

/-- The `Startup` message (src/src/messages/startup.rs).  `parameters`
models the `BTreeMap<String, String>`: an association list of byte strings
strictly sorted by key. -/
structure Startup where
  protocol_number_major : Nat
  protocol_number_minor : Nat
  parameters : List (Bytes × Bytes)
deriving DecidableEq, Repr

/-- Source: `Startup::message_length` — 9 + sum over parameters of
key length + value length + 2. -/
def Startup.message_length (m : Startup) : Nat :=
  9 + (m.parameters.map fun kv => kv.1.length + kv.2.length + 2).sum

/-- Encoding of the parameter pairs, each as two cstrings, in map order. -/
def encodeParams : List (Bytes × Bytes) → Bytes
  | [] => []
  | (k, v) :: t => (put_cstring k ++ put_cstring v) ++ encodeParams t

/-- Source: `Startup::encode_body` — the two protocol version `u16`s, the
parameter pairs in `BTreeMap` iteration order, then an empty cstring. -/
def Startup.encode_body (m : Startup) : Bytes :=
  putU16 m.protocol_number_major ++ putU16 m.protocol_number_minor ++
    encodeParams m.parameters ++ put_cstring []

/-- The `while let Some(key) = codec::get_cstring(buf)` loop of
`Startup::decode_body`: read a key; if present, read the value (an absent or
empty value reads as the empty string) and `BTreeMap::insert` the pair.
The fuel argument only drives structural recursion: every iteration of the
source loop consumes at least two bytes, so `buf.length` fuel is never
exhausted. -/
def readParamsAux : Nat → Bytes → List (Bytes × Bytes) → List (Bytes × Bytes)
  | 0, _, acc => acc
  | Nat.succ fuel, buf, acc =>
      match get_cstring buf with
      | (none, _) => acc
      | (some k, rest) =>
          let v := get_cstring rest
          readParamsAux fuel v.2 (insertB k (v.1.getD []) acc)

/-- Source: `Startup::decode_body` — reads the two version `u16`s (a buffer
of fewer than 4 bytes makes `get_u16` panic), then the key/value loop. -/
def Startup.decode_body (buf : Bytes) : DecRes Startup :=
  match buf with
  | b0 :: b1 :: b2 :: b3 :: rest =>
      .ok { protocol_number_major := b0 * 256 + b1
            protocol_number_minor := b2 * 256 + b3
            parameters := readParamsAux rest.length rest [] }
  | _ => .panic

/-- The `Authentication` response family (src/src/messages/startup.rs).
`MD5Password` carries the four salt bytes of the `[u8; 4]` array. -/
inductive Authentication where
  | Ok : Authentication
  | CleartextPassword : Authentication
  | KerberosV5 : Authentication
  | MD5Password : Nat → Nat → Nat → Nat → Authentication
deriving DecidableEq, Repr

/-- Source: `Authentication::message_length`. -/
def Authentication.message_length : Authentication → Nat
  | .Ok | .CleartextPassword | .KerberosV5 => 8
  | .MD5Password _ _ _ _ => 12

/-- Source: `Authentication::encode_body` — the `i32` auth code, then for
MD5 the four salt bytes. -/
def Authentication.encode_body : Authentication → Bytes
  | .Ok => putU32 0
  | .CleartextPassword => putU32 3
  | .KerberosV5 => putU32 2
  | .MD5Password s0 s1 s2 s3 => putU32 5 ++ [s0, s1, s2, s3]

/-- Source: `Authentication::decode_body` — reads the code and matches it;
codes 0, 2, 3 and 5 are recognized, any other code hits `unreachable!()`,
a panic.  Reading past the end of the buffer (the code itself via
`get_i32`, or the 4 salt bytes via `split_to`) also panics. -/
def Authentication.decode_body (buf : Bytes) : DecRes Authentication :=
  match getU32? buf with
  | none => .panic
  | some (code, rest) =>
      if code = 0 then .ok .Ok
      else if code = 2 then .ok .KerberosV5
      else if code = 3 then .ok .CleartextPassword
      else if code = 5 then
        match rest with
        | s0 :: s1 :: s2 :: s3 :: _ => .ok (.MD5Password s0 s1 s2 s3)
        | _ => .panic
      else .panic

/-- The `Password` message (src/src/messages/startup.rs). -/
structure Password where
  password : Bytes
deriving DecidableEq, Repr

/-- Source: `Password::message_length` — 5 + password byte length. -/
def Password.message_length (m : Password) : Nat :=
  5 + m.password.length

/-- Source: `Password::encode_body`. -/
def Password.encode_body (m : Password) : Bytes :=
  put_cstring m.password

/-- Source: `Password::decode_body` — one cstring, `unwrap_or` empty. -/
def Password.decode_body (buf : Bytes) : DecRes Password :=
  .ok ⟨(get_cstring buf).1.getD []⟩

/-- The `ParameterStatus` message (src/src/messages/startup.rs). -/
structure ParameterStatus where
  name : Bytes
  value : Bytes
deriving DecidableEq, Repr

/-- Source: `ParameterStatus::message_length` — 4 + 2 + name + value. -/
def ParameterStatus.message_length (m : ParameterStatus) : Nat :=
  4 + 2 + m.name.length + m.value.length

/-- Source: `ParameterStatus::encode_body`. -/
def ParameterStatus.encode_body (m : ParameterStatus) : Bytes :=
  put_cstring m.name ++ put_cstring m.value

/-- Source: `ParameterStatus::decode_body` — two cstrings, each
`unwrap_or` empty. -/
def ParameterStatus.decode_body (buf : Bytes) : DecRes ParameterStatus :=
  let n := get_cstring buf
  let v := get_cstring n.2
  .ok ⟨n.1.getD [], v.1.getD []⟩

/-- The `BackendKeyData` message (src/src/messages/startup.rs); the two
`i32` fields are modelled by their unsigned bit patterns. -/
structure BackendKeyData where
  pid : Nat
  secret_key : Nat
deriving DecidableEq, Repr

/-- Source: `BackendKeyData::message_length`. -/
def BackendKeyData.message_length (_ : BackendKeyData) : Nat := 12

/-- Source: `BackendKeyData::encode_body` — the two `i32`s, big-endian. -/
def BackendKeyData.encode_body (m : BackendKeyData) : Bytes :=
  putU32 m.pid ++ putU32 m.secret_key

/-- Source: `BackendKeyData::decode_body`. -/
def BackendKeyData.decode_body (buf : Bytes) : DecRes BackendKeyData :=
  match getU32? buf with
  | none => .panic
  | some (pid, rest) =>
      match getU32? rest with
      | none => .panic
      | some (secret_key, _) => .ok ⟨pid, secret_key⟩

/-!
Framing.  The `Message` trait's default `encode`/`decode` live in
src/src/messages/mod.rs, which is not in the repository snapshot, so the
framing layer is modelled from the spec.
-/

/-- Modelled from the spec: the encoding side of the `Message` trait
(src/src/messages/mod.rs is not in the repository snapshot) — "Every tagged
message: u8 type, i32 length_including_length, body.  The three untagged
startup-family messages omit type."  The length is written as an `i32`, so
its bit pattern is the value modulo `2^32`. -/
def encodeFrame (tag : Option Nat) (len : Nat) (body : Bytes) : Bytes :=
  (match tag with | some t => [t] | none => []) ++ putU32 (len % 4294967296) ++ body

/-- Modelled from the spec: the length-checking half of the decoding
discipline — "A decoder reads the type and the declared length, refuses
frames shorter than 4 bytes or with length < 4, then advances the buffer by
exactly length-4 body bytes."  A declared length whose `i32` bit pattern is
negative is below 4 as an integer, hence also refused. -/
def frameBodyLen (buf : Bytes) : DecRes Bytes :=
  match getU32? buf with
  | none => .protocolError
  | some (len, rest) =>
      if len < 4 ∨ 2147483648 ≤ len then .protocolError
      else if rest.length < len - 4 then .protocolError
      else .ok (rest.take (len - 4))

/-- Modelled from the spec: tag handling of the decoding discipline — a
tagged message's frame starts with its one-byte type tag. -/
def frameBody : Option Nat → Bytes → DecRes Bytes
  | some t, b :: rest => if b = t then frameBodyLen rest else .protocolError
  | some _, [] => .protocolError
  | none, buf => frameBodyLen buf

theorem frameBody_encodeFrame (tag : Option Nat) (len : Nat) (body : Bytes)
    (h4 : 4 ≤ len) (h31 : len < 2147483648) (hlen : body.length = len - 4) :
    frameBody tag (encodeFrame tag len body) = .ok body := by
  have hmod : len % 4294967296 = len := Nat.mod_eq_of_lt (by omega)
  have hcore : frameBodyLen (putU32 (len % 4294967296) ++ body) = .ok body := by
    rw [hmod]
    unfold frameBodyLen
    rw [getU32_putU32 len body (by omega)]
    dsimp only
    rw [if_neg (by omega), if_neg (by omega), ← hlen, List.take_length]
  cases tag with
  | none => simpa [encodeFrame, frameBody] using hcore
  | some t => simpa [encodeFrame, frameBody] using hcore

/-- Tags from the source: `R`, `p`, `S`, `K`; `Startup` is untagged. -/
def Startup.encode (m : Startup) : Bytes :=
  encodeFrame none m.message_length m.encode_body

def Startup.decode (buf : Bytes) : DecRes Startup :=
  (frameBody none buf).andThen Startup.decode_body

def Authentication.encode (m : Authentication) : Bytes :=
  encodeFrame (some 82) m.message_length m.encode_body

def Authentication.decode (buf : Bytes) : DecRes Authentication :=
  (frameBody (some 82) buf).andThen Authentication.decode_body

def Password.encode (m : Password) : Bytes :=
  encodeFrame (some 112) m.message_length m.encode_body

def Password.decode (buf : Bytes) : DecRes Password :=
  (frameBody (some 112) buf).andThen Password.decode_body

def ParameterStatus.encode (m : ParameterStatus) : Bytes :=
  encodeFrame (some 83) m.message_length m.encode_body

def ParameterStatus.decode (buf : Bytes) : DecRes ParameterStatus :=
  (frameBody (some 83) buf).andThen ParameterStatus.decode_body

def BackendKeyData.encode (m : BackendKeyData) : Bytes :=
  encodeFrame (some 75) m.message_length m.encode_body

def BackendKeyData.decode (buf : Bytes) : DecRes BackendKeyData :=
  (frameBody (some 75) buf).andThen BackendKeyData.decode_body

/-!
Well-formedness.  A message is well formed when its strings hold bytes
(below 256) free of the NUL terminator, its startup parameter keys are
non-empty and strictly sorted (the `BTreeMap` invariant), its numeric
fields fit their machine type, and its total length fits a non-negative
`i32`.
-/

/-- A wire-safe string: bytes below 256, none of them NUL. -/
def wfStr (s : Bytes) : Bool :=
  s.all fun b => decide (b < 256) && decide (b ≠ 0)

def Startup.wf (m : Startup) : Bool :=
  decide (m.protocol_number_major < 65536) &&
  decide (m.protocol_number_minor < 65536) &&
  (m.parameters.all fun kv => !kv.1.isEmpty && wfStr kv.1 && wfStr kv.2) &&
  pairwiseLtB m.parameters &&
  decide (m.message_length < 2147483648)

def Authentication.wf : Authentication → Bool
  | .Ok | .CleartextPassword | .KerberosV5 => true
  | .MD5Password s0 s1 s2 s3 =>
      decide (s0 < 256) && decide (s1 < 256) && decide (s2 < 256) && decide (s3 < 256)

def Password.wf (m : Password) : Bool :=
  wfStr m.password && decide (m.message_length < 2147483648)

def ParameterStatus.wf (m : ParameterStatus) : Bool :=
  wfStr m.name && wfStr m.value && decide (m.message_length < 2147483648)

def BackendKeyData.wf (m : BackendKeyData) : Bool :=
  decide (m.pid < 4294967296) && decide (m.secret_key < 4294967296)

/-!
Length lemmas: for every message the declared `message_length` is 4 (the
length field itself) plus the number of bytes `encode_body` appends.
-/

theorem encodeParams_length (ps : List (Bytes × Bytes)) :
    (encodeParams ps).length = (ps.map fun kv => kv.1.length + kv.2.length + 2).sum := by
  induction ps with
  | nil => rfl
  | cons p t ih =>
      obtain ⟨k, v⟩ := p
      simp [encodeParams, put_cstring, ih]
      omega

theorem startup_length (m : Startup) :
    m.message_length = 4 + m.encode_body.length := by
  simp [Startup.message_length, Startup.encode_body, putU16, put_cstring,
    encodeParams_length]
  omega

theorem authentication_length (m : Authentication) :
    m.message_length = 4 + m.encode_body.length := by
  cases m <;> simp [Authentication.message_length, Authentication.encode_body, putU32]

theorem password_length (m : Password) :
    m.message_length = 4 + m.encode_body.length := by
  simp [Password.message_length, Password.encode_body, put_cstring]
  omega

theorem parameter_status_length (m : ParameterStatus) :
    m.message_length = 4 + m.encode_body.length := by
  simp [ParameterStatus.message_length, ParameterStatus.encode_body, put_cstring]
  omega

theorem backend_key_data_length (m : BackendKeyData) :
    m.message_length = 4 + m.encode_body.length := by
  simp [BackendKeyData.message_length, BackendKeyData.encode_body, putU32]

/-!
Body-level decode/encode roundtrips.
-/

theorem readParamsAux_encodeParams (ps : List (Bytes × Bytes)) (fuel : Nat)
    (acc : List (Bytes × Bytes))
    (hf : (encodeParams ps).length + 1 ≤ fuel)
    (hwf : ∀ kv ∈ ps, kv.1 ≠ [] ∧ (∀ x ∈ kv.1, x ≠ 0) ∧ (∀ x ∈ kv.2, x ≠ 0)) :
    readParamsAux fuel (encodeParams ps ++ [0]) acc
      = ps.foldl (fun a kv => insertB kv.1 kv.2 a) acc := by
  induction ps generalizing fuel acc with
  | nil =>
      cases fuel with
      | zero => simp [encodeParams] at hf
      | succ f => simp [encodeParams, readParamsAux, get_cstring_zero]
  | cons p t ih =>
      obtain ⟨k, v⟩ := p
      have hk := hwf (k, v) (List.mem_cons_self _ _)
      have hwt : ∀ kv ∈ t, kv.1 ≠ [] ∧ (∀ x ∈ kv.1, x ≠ 0) ∧ (∀ x ∈ kv.2, x ≠ 0) :=
        fun kv hkv => hwf kv (List.mem_cons_of_mem _ hkv)
      have hclen : (encodeParams ((k, v) :: t)).length
          = k.length + v.length + 2 + (encodeParams t).length := by
        simp [encodeParams, put_cstring]
        omega
      cases fuel with
      | zero => omega
      | succ f =>
          have hbuf : encodeParams ((k, v) :: t) ++ [0]
              = k ++ 0 :: (v ++ 0 :: (encodeParams t ++ [0])) := by
            simp [encodeParams, put_cstring]
          rw [hbuf]
          simp only [readParamsAux]
          rw [get_cstring_append k _ hk.1 hk.2.1]
          have hv := get_cstring_value v (encodeParams t ++ [0]) hk.2.2
          simp only [hv.1, hv.2, List.foldl_cons]
          exact ih f (insertB k v acc) (by omega) hwt

theorem startup_decode_encode_body (m : Startup) (h : m.wf = true) :
    Startup.decode_body m.encode_body = DecRes.ok m := by
  obtain ⟨a, b, ps⟩ := m
  simp only [Startup.wf, Bool.and_eq_true, decide_eq_true_eq,
    List.all_eq_true] at h
  obtain ⟨⟨⟨⟨ha, hb⟩, hparams⟩, hsorted⟩, -⟩ := h
  have hwf : ∀ kv ∈ ps, kv.1 ≠ [] ∧ (∀ x ∈ kv.1, x ≠ 0) ∧ (∀ x ∈ kv.2, x ≠ 0) := by
    intro kv hkv
    have h1 := hparams kv hkv
    simp only [Bool.and_eq_true, Bool.not_eq_true', wfStr, List.all_eq_true,
      decide_eq_true_eq] at h1
    refine ⟨?_, fun x hx => (h1.1.2 x hx).2, fun x hx => (h1.2 x hx).2⟩
    intro he
    rw [he] at h1
    simp at h1
  have hbody : Startup.encode_body ⟨a, b, ps⟩
      = (a / 256 % 256) :: (a % 256) :: (b / 256 % 256) :: (b % 256)
        :: (encodeParams ps ++ [0]) := by
    simp [Startup.encode_body, putU16, put_cstring]
  have hps : readParamsAux (encodeParams ps ++ [0]).length (encodeParams ps ++ [0]) []
      = ps := by
    have hl : (encodeParams ps ++ [0]).length = (encodeParams ps).length + 1 := by
      simp
    rw [hl, readParamsAux_encodeParams ps _ [] (Nat.le_refl _) hwf,
      foldl_insertB ps [] hsorted (by simp), List.nil_append]
  rw [hbody]
  simp only [Startup.decode_body, hps]
  have hmaj : (a / 256 % 256) * 256 + a % 256 = a := by omega
  have hmin : (b / 256 % 256) * 256 + b % 256 = b := by omega
  rw [hmaj, hmin]

theorem authentication_decode_encode_body (m : Authentication) :
    Authentication.decode_body m.encode_body = DecRes.ok m := by
  cases m with
  | Ok => decide
  | CleartextPassword => decide
  | KerberosV5 => decide
  | MD5Password s0 s1 s2 s3 =>
      have h5 : getU32? (putU32 5 ++ [s0, s1, s2, s3])
          = some (5, [s0, s1, s2, s3]) := getU32_putU32 5 _ (by omega)
      simp only [Authentication.encode_body, Authentication.decode_body, h5]
      norm_num

theorem password_decode_encode_body (m : Password) (h : m.wf = true) :
    Password.decode_body m.encode_body = DecRes.ok m := by
  obtain ⟨s⟩ := m
  simp only [Password.wf, Bool.and_eq_true, wfStr, List.all_eq_true,
    decide_eq_true_eq] at h
  have hs : ∀ x ∈ s, x ≠ 0 := fun x hx => (h.1 x hx).2
  have hv := get_cstring_value s [] hs
  simp only [Password.decode_body, Password.encode_body, put_cstring]
  rw [show s ++ [0] = s ++ 0 :: [] from rfl, hv.1]

theorem parameter_status_decode_encode_body (m : ParameterStatus) (h : m.wf = true) :
    ParameterStatus.decode_body m.encode_body = DecRes.ok m := by
  obtain ⟨n, v⟩ := m
  simp only [ParameterStatus.wf, Bool.and_eq_true, wfStr, List.all_eq_true,
    decide_eq_true_eq] at h
  have hn : ∀ x ∈ n, x ≠ 0 := fun x hx => (h.1.1 x hx).2
  have hvz : ∀ x ∈ v, x ≠ 0 := fun x hx => (h.1.2 x hx).2
  have hbody : ParameterStatus.encode_body ⟨n, v⟩ = n ++ 0 :: (v ++ 0 :: []) := by
    simp [ParameterStatus.encode_body, put_cstring]
  have h1 := get_cstring_value n (v ++ 0 :: []) hn
  have h2 := get_cstring_value v [] hvz
  rw [hbody]
  simp only [ParameterStatus.decode_body, h1.1, h1.2, h2.1]

theorem backend_key_data_decode_encode_body (m : BackendKeyData) (h : m.wf = true) :
    BackendKeyData.decode_body m.encode_body = DecRes.ok m := by
  obtain ⟨pid, secret⟩ := m
  simp only [BackendKeyData.wf, Bool.and_eq_true, decide_eq_true_eq] at h
  have h1 : getU32? (putU32 pid ++ putU32 secret) = some (pid, putU32 secret) :=
    getU32_putU32 pid _ h.1
  have h2 : getU32? (putU32 secret ++ []) = some (secret, []) :=
    getU32_putU32 secret [] h.2
  rw [List.append_nil] at h2
  simp only [BackendKeyData.decode_body, BackendKeyData.encode_body, h1, h2]

/-!
Frame-level roundtrips.
-/

theorem startup_decode_encode (m : Startup) (h : m.wf = true) :
    Startup.decode (Startup.encode m) = DecRes.ok m := by
  have h31 : m.message_length < 2147483648 := by
    simp only [Startup.wf, Bool.and_eq_true, decide_eq_true_eq] at h
    exact h.2
  have hlen := startup_length m
  rw [Startup.decode, Startup.encode,
    frameBody_encodeFrame none m.message_length m.encode_body (by omega) h31 (by omega)]
  simp only [DecRes.andThen]
  exact startup_decode_encode_body m h

theorem authentication_decode_encode (m : Authentication) :
    Authentication.decode (Authentication.encode m) = DecRes.ok m := by
  have h31 : m.message_length < 2147483648 := by
    cases m <;> simp [Authentication.message_length]
  have hlen := authentication_length m
  rw [Authentication.decode, Authentication.encode,
    frameBody_encodeFrame (some 82) m.message_length m.encode_body (by omega) h31
      (by omega)]
  simp only [DecRes.andThen]
  exact authentication_decode_encode_body m

theorem password_decode_encode (m : Password) (h : m.wf = true) :
    Password.decode (Password.encode m) = DecRes.ok m := by
  have h31 : m.message_length < 2147483648 := by
    simp only [Password.wf, Bool.and_eq_true, decide_eq_true_eq] at h
    exact h.2
  have hlen := password_length m
  rw [Password.decode, Password.encode,
    frameBody_encodeFrame (some 112) m.message_length m.encode_body (by omega) h31
      (by omega)]
  simp only [DecRes.andThen]
  exact password_decode_encode_body m h

theorem parameter_status_decode_encode (m : ParameterStatus) (h : m.wf = true) :
    ParameterStatus.decode (ParameterStatus.encode m) = DecRes.ok m := by
  have h31 : m.message_length < 2147483648 := by
    simp only [ParameterStatus.wf, Bool.and_eq_true, decide_eq_true_eq] at h
    exact h.2
  have hlen := parameter_status_length m
  rw [ParameterStatus.decode, ParameterStatus.encode,
    frameBody_encodeFrame (some 83) m.message_length m.encode_body (by omega) h31
      (by omega)]
  simp only [DecRes.andThen]
  exact parameter_status_decode_encode_body m h

theorem backend_key_data_decode_encode (m : BackendKeyData) (h : m.wf = true) :
    BackendKeyData.decode (BackendKeyData.encode m) = DecRes.ok m := by
  have hlen := backend_key_data_length m
  rw [BackendKeyData.decode, BackendKeyData.encode,
    frameBody_encodeFrame (some 75) m.message_length m.encode_body (by omega)
      (by simp [BackendKeyData.message_length]) (by omega)]
  simp only [DecRes.andThen]
  exact backend_key_data_decode_encode_body m h

/-!
Portal and format descriptors (src/src/api/portal.rs).  `i16` wire format
codes are modelled as `Int`.
-/

/-- Modelled from the spec: the wire format-code constants
(src/src/messages/data.rs is not in the repository snapshot) — "one code
per column/parameter, text=0 binary=1" (§3). -/
def FORMAT_CODE_TEXT : Int := 0

/-- Modelled from the spec: see FORMAT_CODE_TEXT. -/
def FORMAT_CODE_BINARY : Int := 1

/-- Modelled from the spec: the per-field format marker `FieldFormat`
(src/src/api/results.rs is not in the repository snapshot), converted from
a wire code with the same convention as `impl From for Format` in
src/src/api/portal.rs: the binary code maps to Binary, everything else to
Text. -/
inductive FieldFormat where
  | Text : FieldFormat
  | Binary : FieldFormat
deriving DecidableEq, Repr

/-- Modelled from the spec: see FieldFormat. -/
def FieldFormat.from_code (v : Int) : FieldFormat :=
  if v = FORMAT_CODE_BINARY then .Binary else .Text

/-- The format descriptor (src/src/api/portal.rs). -/
inductive Format where
  | UnifiedText : Format
  | UnifiedBinary : Format
  | Individual : List Int → Format
deriving DecidableEq, Repr

/-- Source: `impl From for Format` — the binary code yields UnifiedBinary,
every other code yields UnifiedText. -/
def Format.from_code (v : Int) : Format :=
  if v = FORMAT_CODE_BINARY then .UnifiedBinary else .UnifiedText

/-- Source: `Format::format_for` — `UnifiedText`/`UnifiedBinary` answer at
every index; `Individual` indexes `fv[idx]` without a bound check, so an
out-of-range index panics: that panic is modelled as `none`. -/
def Format.format_for : Format → Nat → Option FieldFormat
  | .UnifiedText, _ => some .Text
  | .UnifiedBinary, _ => some .Binary
  | .Individual fv, idx => (fv.get? idx).map FieldFormat.from_code

/-- Source: `Format::is_text` (propagating `format_for`'s panic). -/
def Format.is_text (f : Format) (idx : Nat) : Option Bool :=
  (f.format_for idx).map fun x => x == FieldFormat.Text

/-- Source: `Format::is_binary` (propagating `format_for`'s panic). -/
def Format.is_binary (f : Format) (idx : Nat) : Option Bool :=
  (f.format_for idx).map fun x => x == FieldFormat.Binary

/-- Source: `Format::from_codes`. -/
def Format.from_codes (codes : List Int) : Format :=
  if codes.isEmpty then .UnifiedText
  else if codes.length = 1 then Format.from_code (codes.headD 0)
  else .Individual codes

/-- Modelled from the spec: `DEFAULT_NAME` (src/src/api/mod.rs is not in
the repository snapshot) — the empty string names the unnamed slot (§3). -/
def DEFAULT_NAME : Bytes := []

/-- Modelled from the spec: the `Bind` message
(src/src/messages/extendedquery.rs is not in the repository snapshot) —
`Bind(portal, statement, param_formats, params, result_formats)` (§4.6),
with the two optional names as on the wire. -/
structure BindMessage where
  portal_name : Option Bytes
  statement_name : Option Bytes
  parameter_format_codes : List Int
  parameters : List (Option Bytes)
  result_column_format_codes : List Int

/-- The `Portal` struct (src/src/api/portal.rs).  The type parameter `S`
stands for the `Arc` of the `StoredStatement` payload, which the
portal code never inspects. -/
structure Portal (S : Type) where
  name : Bytes
  statement : S
  parameter_format : Format
  parameters : List (Option Bytes)
  result_column_format : Format

/-- The `PgWireError` variants produced by `Portal::parameter`
(src/src/error.rs is not in the repository snapshot; the variants and their
payloads follow the spec's §4.2 error list and the uses in
src/src/api/portal.rs).  The boxed source error inside
`FailedToParseParameter` is opaque and omitted. -/
inductive PgWireError where
  | InvalidRustTypeForParameter : Bytes → PgWireError
  | ParameterIndexOutOfBound : Nat → PgWireError
  | FailedToParseParameter : PgWireError
deriving DecidableEq, Repr

/-- Source: `Portal::try_new` — build the portal from a `Bind`, deriving
both format descriptors with `Format::from_codes`. -/
def Portal.try_new {S : Type} (bind : BindMessage) (statement : S) :
    Except PgWireError (Portal S) :=
  .ok { name := bind.portal_name.getD DEFAULT_NAME
        statement := statement
        parameter_format := Format.from_codes bind.parameter_format_codes
        parameters := bind.parameters
        result_column_format := Format.from_codes bind.result_column_format_codes }

/-- The PostgreSQL type handle passed to `Portal::parameter`; only its name
is observed (for the invalid-type error). -/
structure PgType where
  name : Bytes
deriving DecidableEq, Repr

/-- Modelled from the spec: the parameter-decoding capability set — §4.2
"Parameter decoding is polymorphic over the capability set accepts(oid),
from_text(oid, bytes), from_binary(oid, bytes)".  `from_sql` is the
binary-format decoder of the external `postgres_types::FromSqlOwned` trait
(the one the source calls); `from_text` is the text-format decoder the spec
requires.  A parse failure is `none` (the boxed error payload is opaque). -/
structure FromSqlCap (T : Type) where
  accepts : PgType → Bool
  from_sql : PgType → Bytes → Option T
  from_text : PgType → Bytes → Option T

/-- Outcome of `Portal::parameter`: an `Ok` value, a `PgWireError`, or a
Rust panic (raised by `format_for` on an out-of-range `Individual` index). -/
inductive PRes (α : Type) where
  | ok : α → PRes α
  | error : PgWireError → PRes α
  | panic : PRes α
deriving DecidableEq, Repr

/-- Source: `Portal::parameter` — reject a non-accepting Rust type, then
look up the parameter (out-of-bound otherwise), then evaluate
`self.parameter_format.format_for(idx)` (the `let _format` binding runs
eagerly and can panic), then decode a present value with `T::from_sql`
regardless of the computed format (the source's TODO), or return `Ok(None)`
for SQL NULL. -/
def Portal.parameter {S T : Type} (cap : FromSqlCap T) (self : Portal S)
    (idx : Nat) (pg_type : PgType) : PRes (Option T) :=
  if cap.accepts pg_type = false then
    .error (.InvalidRustTypeForParameter pg_type.name)
  else
    match self.parameters.get? idx with
    | none => .error (.ParameterIndexOutOfBound idx)
    | some param =>
        match self.parameter_format.format_for idx with
        | none => .panic
        | some _format =>
            match param with
            | some bytes =>
                match cap.from_sql pg_type bytes with
                | some v => .ok (some v)
                | none => .error .FailedToParseParameter
            | none => .ok none

/-!
Claim theorems.
-/

/-- Claim C1: for every well-formed message of the startup-phase message
types implemented in src/src/messages/startup.rs (Startup, Authentication,
Password, ParameterStatus, BackendKeyData), decoding the encoding of the
message yields the message back. -/
theorem claim_C1_decode_encode_roundtrip :
    (∀ m : Startup, m.wf = true →
      Startup.decode (Startup.encode m) = DecRes.ok m) ∧
    (∀ m : Authentication, m.wf = true →
      Authentication.decode (Authentication.encode m) = DecRes.ok m) ∧
    (∀ m : Password, m.wf = true →
      Password.decode (Password.encode m) = DecRes.ok m) ∧
    (∀ m : ParameterStatus, m.wf = true →
      ParameterStatus.decode (ParameterStatus.encode m) = DecRes.ok m) ∧
    (∀ m : BackendKeyData, m.wf = true →
      BackendKeyData.decode (BackendKeyData.encode m) = DecRes.ok m) :=
  ⟨startup_decode_encode, fun m _ => authentication_decode_encode m,
   password_decode_encode, parameter_status_decode_encode,
   backend_key_data_decode_encode⟩

def startupEx : Startup := ⟨3, 0, [([97], [49]), ([98], [50])]⟩

def authEx : Authentication := .MD5Password 1 2 3 4

def passwordEx : Password := ⟨[112, 119]⟩

def statusEx : ParameterStatus := ⟨[110], [118]⟩

def keyEx : BackendKeyData := ⟨70000, 5⟩

/-- Witness for C1: the roundtrip at one concrete message per type. -/
theorem claim_C1_witness :
    Startup.decode (Startup.encode startupEx) = DecRes.ok startupEx ∧
    Authentication.decode (Authentication.encode authEx) = DecRes.ok authEx ∧
    Password.decode (Password.encode passwordEx) = DecRes.ok passwordEx ∧
    ParameterStatus.decode (ParameterStatus.encode statusEx) = DecRes.ok statusEx ∧
    BackendKeyData.decode (BackendKeyData.encode keyEx) = DecRes.ok keyEx :=
  ⟨claim_C1_decode_encode_roundtrip.1 startupEx (by decide),
   claim_C1_decode_encode_roundtrip.2.1 authEx (by decide),
   claim_C1_decode_encode_roundtrip.2.2.1 passwordEx (by decide),
   claim_C1_decode_encode_roundtrip.2.2.2.1 statusEx (by decide),
   claim_C1_decode_encode_roundtrip.2.2.2.2 keyEx (by decide)⟩

/-- Claim C8: for every message of every type implemented in
src/src/messages/startup.rs, the declared `message_length` equals 4 (the
inclusive length field) plus the number of bytes `encode_body` appends —
for Startup, all Authentication variants including MD5Password, Password,
ParameterStatus and BackendKeyData. -/
theorem claim_C8_message_length :
    (∀ m : Startup, m.message_length = 4 + m.encode_body.length) ∧
    (∀ m : Authentication, m.message_length = 4 + m.encode_body.length) ∧
    (∀ m : Password, m.message_length = 4 + m.encode_body.length) ∧
    (∀ m : ParameterStatus, m.message_length = 4 + m.encode_body.length) ∧
    (∀ m : BackendKeyData, m.message_length = 4 + m.encode_body.length) :=
  ⟨startup_length, authentication_length, password_length,
   parameter_status_length, backend_key_data_length⟩

/-- Claim C3 (the code panics where the claim requires a ProtocolError):
decoding the Authentication frame `52 00 00 00 08 00 00 00 01` — tag `R`,
declared length 8, body carrying the unrecognized auth code 1 — hits the
source's `unreachable!()` and panics; likewise at the bare body level.  By
contrast a frame with declared length 3 (< 4) is refused with a
ProtocolError as the claim describes. -/
theorem claim_C3_auth_unknown_code_panics :
    Authentication.decode [82, 0, 0, 0, 8, 0, 0, 0, 1] = DecRes.panic ∧
    Authentication.decode_body [0, 0, 0, 1] = DecRes.panic ∧
    Authentication.decode [82, 0, 0, 0, 3] = DecRes.protocolError := by
  decide

/-- Claim C2 counterexample: the claim says any non-zero single code yields
UnifiedBinary, but the code maps only FORMAT_CODE_BINARY (= 1) to
UnifiedBinary — the single code 2 yields UnifiedText. -/
theorem claim_C2_counterexample :
    Format.from_codes [2] = Format.UnifiedText ∧
    Format.from_codes [2] ≠ Format.UnifiedBinary := by decide

/-- Claim C2 (amended): empty code array → UnifiedText; a single code →
UnifiedBinary exactly when the code is 1 (FORMAT_CODE_BINARY) and
UnifiedText for every other code, zero or not; length ≥ 2 → Individual;
and `Portal::try_new` derives both the parameter-format and the
result-column-format descriptors of the portal from the Bind message this
way. -/
theorem claim_C2_from_codes (c d : Int) (cs : List Int) :
    Format.from_codes [] = Format.UnifiedText ∧
    Format.from_codes [c]
      = (if c = FORMAT_CODE_BINARY then Format.UnifiedBinary else Format.UnifiedText) ∧
    Format.from_codes (c :: d :: cs) = Format.Individual (c :: d :: cs) ∧
    (∀ (S : Type) (st : S) (bind : BindMessage),
      Portal.try_new bind st = Except.ok
        { name := bind.portal_name.getD DEFAULT_NAME
          statement := st
          parameter_format := Format.from_codes bind.parameter_format_codes
          parameters := bind.parameters
          result_column_format := Format.from_codes bind.result_column_format_codes }) := by
  refine ⟨rfl, ?_, ?_, fun S st bind => rfl⟩
  · simp [Format.from_codes, Format.from_code]
  · simp [Format.from_codes]

/-- Claim C10: `format_for` (and hence `is_text`/`is_binary`) is total for
the unified descriptors at every index, while for `Individual codes` it is
defined only when the index is within `codes`; past the end the unguarded
`fv[idx]` indexing panics (modelled as `none`) instead of returning an
error. -/
theorem claim_C10_format_for (codes : List Int) (idx : Nat) :
    Format.format_for Format.UnifiedText idx = some FieldFormat.Text ∧
    Format.format_for Format.UnifiedBinary idx = some FieldFormat.Binary ∧
    Format.is_text Format.UnifiedText idx = some true ∧
    Format.is_binary Format.UnifiedBinary idx = some true ∧
    (idx < codes.length →
      (Format.format_for (Format.Individual codes) idx).isSome = true) ∧
    (codes.length ≤ idx →
      Format.format_for (Format.Individual codes) idx = none ∧
      Format.is_text (Format.Individual codes) idx = none ∧
      Format.is_binary (Format.Individual codes) idx = none) := by
  refine ⟨rfl, rfl, rfl, rfl, ?_, ?_⟩
  · intro h
    simp only [Format.format_for, Option.isSome_map]
    rw [List.get?_eq_get h]
    rfl
  · intro h
    simp [Format.format_for, Format.is_text, Format.is_binary,
      List.get?_eq_none.mpr h, h]

/-- Witness for C10: Individual [0, 1] at the out-of-range index 2. -/
theorem claim_C10_witness :
    Format.format_for (Format.Individual [0, 1]) 2 = none ∧
    Format.is_text (Format.Individual [0, 1]) 2 = none ∧
    Format.is_binary (Format.Individual [0, 1]) 2 = none :=
  (claim_C10_format_for [0, 1] 2).2.2.2.2.2 (by decide)

def c4frame : Bytes :=
  [0, 0, 0, 17, 0, 3, 0, 0, 98, 0, 49, 0, 97, 0, 50, 0, 0]

def c4msg : Startup := ⟨3, 0, [([97], [50]), ([98], [49])]⟩

/-- Claim C4 counterexample: the well-formed Startup frame `c4frame` lists
its pairs in the order b=1, a=2; it decodes fine, but the BTreeMap
re-encodes the pairs sorted by key, so the original bytes are not
returned. -/
theorem claim_C4_counterexample :
    Startup.decode c4frame = DecRes.ok c4msg ∧
    Startup.encode c4msg ≠ c4frame := by decide

/-- Claim C4 (amended): re-encoding returns exactly the original bytes for
canonical frames — those arising as the encoding of a well-formed message
of any of the five startup-phase types.  In particular a Startup frame's
pairs must already be in strictly increasing key order: a frame with any
other on-wire pair order decodes, but re-encodes with the pairs sorted. -/
theorem claim_C4_encode_decode :
    (∀ (b : Bytes) (m : Startup), m.wf = true → b = Startup.encode m →
      ∃ m2, Startup.decode b = DecRes.ok m2 ∧ Startup.encode m2 = b) ∧
    (∀ (b : Bytes) (m : Authentication), m.wf = true → b = Authentication.encode m →
      ∃ m2, Authentication.decode b = DecRes.ok m2 ∧ Authentication.encode m2 = b) ∧
    (∀ (b : Bytes) (m : Password), m.wf = true → b = Password.encode m →
      ∃ m2, Password.decode b = DecRes.ok m2 ∧ Password.encode m2 = b) ∧
    (∀ (b : Bytes) (m : ParameterStatus), m.wf = true → b = ParameterStatus.encode m →
      ∃ m2, ParameterStatus.decode b = DecRes.ok m2 ∧ ParameterStatus.encode m2 = b) ∧
    (∀ (b : Bytes) (m : BackendKeyData), m.wf = true → b = BackendKeyData.encode m →
      ∃ m2, BackendKeyData.decode b = DecRes.ok m2 ∧ BackendKeyData.encode m2 = b) := by
  refine ⟨?_, ?_, ?_, ?_, ?_⟩
  · intro b m hwf hb
    subst hb
    exact ⟨m, startup_decode_encode m hwf, rfl⟩
  · intro b m hwf hb
    subst hb
    exact ⟨m, authentication_decode_encode m, rfl⟩
  · intro b m hwf hb
    subst hb
    exact ⟨m, password_decode_encode m hwf, rfl⟩
  · intro b m hwf hb
    subst hb
    exact ⟨m, parameter_status_decode_encode m hwf, rfl⟩
  · intro b m hwf hb
    subst hb
    exact ⟨m, backend_key_data_decode_encode m hwf, rfl⟩

/-- Witness for C4 at a concrete canonical Startup frame. -/
theorem claim_C4_witness :
    ∃ m2, Startup.decode (Startup.encode startupEx) = DecRes.ok m2 ∧
      Startup.encode m2 = Startup.encode startupEx :=
  claim_C4_encode_decode.1 (Startup.encode startupEx) startupEx (by decide) rfl

def dupBody : Bytes := [0, 3, 0, 0, 97, 0, 49, 0, 97, 0, 50, 0, 0]

/-- Claim C6 counterexample: a Startup body declaring the parameter `a`
twice (first a=1, then a=2) is not rejected: decoding succeeds and
silently keeps only the second value. -/
theorem claim_C6_counterexample :
    Startup.decode_body dupBody = DecRes.ok ⟨3, 0, [([97], [50])]⟩ := by decide

/-- Claim C6 (amended): decoding a Startup body that contains the same
parameter name twice succeeds — `BTreeMap::insert` silently replaces, so
the later occurrence's value wins. -/
theorem claim_C6_duplicate_last_wins (k v1 v2 : Bytes)
    (hk : k ≠ []) (hk0 : ∀ x ∈ k, x ≠ 0)
    (hv1 : ∀ x ∈ v1, x ≠ 0) (hv2 : ∀ x ∈ v2, x ≠ 0) :
    Startup.decode_body
        (putU16 3 ++ putU16 0 ++ encodeParams [(k, v1), (k, v2)] ++ [0])
      = DecRes.ok ⟨3, 0, [(k, v2)]⟩ := by
  have hwf : ∀ kv ∈ [(k, v1), (k, v2)],
      kv.1 ≠ [] ∧ (∀ x ∈ kv.1, x ≠ 0) ∧ (∀ x ∈ kv.2, x ≠ 0) := by
    intro kv hkv
    simp only [List.mem_cons, List.not_mem_nil, or_false] at hkv
    rcases hkv with rfl | rfl
    · exact ⟨hk, hk0, hv1⟩
    · exact ⟨hk, hk0, hv2⟩
  have hbody : putU16 3 ++ putU16 0 ++ encodeParams [(k, v1), (k, v2)] ++ [0]
      = 0 :: 3 :: 0 :: 0 :: (encodeParams [(k, v1), (k, v2)] ++ [0]) := by
    simp [putU16]
  rw [hbody]
  simp only [Startup.decode_body]
  have hl : (encodeParams [(k, v1), (k, v2)] ++ [0]).length
      = (encodeParams [(k, v1), (k, v2)]).length + 1 := by simp
  rw [hl, readParamsAux_encodeParams _ _ [] (Nat.le_refl _) hwf]
  simp only [List.foldl_cons, List.foldl_nil, insertB_same]

/-- Witness for C6 at the concrete duplicated pair a=1, a=2. -/
theorem claim_C6_witness :
    Startup.decode_body
        (putU16 3 ++ putU16 0 ++ encodeParams [([97], [49]), ([97], [50])] ++ [0])
      = DecRes.ok ⟨3, 0, [([97], [50])]⟩ :=
  claim_C6_duplicate_last_wins [97] [49] [50] (by decide) (by decide) (by decide)
    (by decide)

def ty0 : PgType := ⟨[116]⟩

def textCap : FromSqlCap Bool :=
  ⟨fun _ => true, fun _ _ => some false, fun _ _ => some true⟩

def textPortal : Portal Unit :=
  ⟨[], (), Format.UnifiedText, [some [49]], Format.UnifiedText⟩

/-- Claim C5 (the code does not decode per the format descriptor): for a
portal whose parameter format is text, with a capability whose text and
binary decoders return distinguishable values, `Portal::parameter` returns
the binary decoder's result — `T::from_sql` runs unconditionally and
`from_text` is never consulted, per the source's TODO. -/
theorem claim_C5_text_param_uses_binary_decoder :
    textPortal.parameter_format.format_for 0 = some FieldFormat.Text ∧
    textCap.from_text ty0 [49] = some true ∧
    textCap.from_sql ty0 [49] = some false ∧
    Portal.parameter textCap textPortal 0 ty0 = PRes.ok (some false) := by decide

def cap7 : FromSqlCap Bool :=
  ⟨fun _ => true, fun _ _ => none, fun _ _ => none⟩

def portal7 : Portal Unit :=
  ⟨[], (), Format.Individual [0, 1], [some [49], some [50], some [51]],
   Format.UnifiedText⟩

/-- Claim C7 counterexample: with an accepting type, an in-bounds index 2
whose stored bytes fail to parse, the claim demands
FailedToParseParameter — but the parameter-format descriptor
Individual([0, 1]) is undefined at index 2, and the eager
`format_for` call panics before `from_sql` is ever reached. -/
theorem claim_C7_counterexample :
    cap7.accepts ty0 = true ∧
    portal7.parameters.get? 2 = some (some [51]) ∧
    cap7.from_sql ty0 [51] = none ∧
    Portal.parameter cap7 portal7 2 ty0 = PRes.panic ∧
    Portal.parameter cap7 portal7 2 ty0
      ≠ PRes.error PgWireError.FailedToParseParameter := by decide

/-- Claim C7 (amended): `Portal::parameter` returns the invalid-type error
when the Rust type does not accept the PostgreSQL type (without touching
the parameter list); otherwise ParameterIndexOutOfBound when the index is
past the bound parameters; otherwise — provided the parameter-format
descriptor is defined at the index, else the eager `format_for` call
panics — FailedToParseParameter when the stored bytes fail to parse; and
Ok arises only in the remaining cases (a stored NULL, or bytes that
parse). -/
theorem claim_C7_parameter_errors {S T : Type} (cap : FromSqlCap T)
    (p : Portal S) (idx : Nat) (ty : PgType) :
    (cap.accepts ty = false →
      Portal.parameter cap p idx ty
        = PRes.error (PgWireError.InvalidRustTypeForParameter ty.name)) ∧
    (cap.accepts ty = true → p.parameters.length ≤ idx →
      Portal.parameter cap p idx ty
        = PRes.error (PgWireError.ParameterIndexOutOfBound idx)) ∧
    (∀ b, cap.accepts ty = true → p.parameters.get? idx = some (some b) →
      (p.parameter_format.format_for idx).isSome = true →
      cap.from_sql ty b = none →
      Portal.parameter cap p idx ty
        = PRes.error PgWireError.FailedToParseParameter) ∧
    (∀ r, Portal.parameter cap p idx ty = PRes.ok r →
      cap.accepts ty = true ∧ idx < p.parameters.length ∧
      ((r = none ∧ p.parameters.get? idx = some none) ∨
       (∃ b v, r = some v ∧ p.parameters.get? idx = some (some b) ∧
         cap.from_sql ty b = some v))) := by
  refine ⟨?_, ?_, ?_, ?_⟩
  · intro h
    simp [Portal.parameter, h]
  · intro h hlen
    have hnone : p.parameters.get? idx = none := List.get?_eq_none.mpr hlen
    rw [List.get?_eq_getElem?] at hnone
    simp [Portal.parameter, h, hnone]
  · intro b h hget hfmt hsql
    obtain ⟨f, hf⟩ := Option.isSome_iff_exists.mp hfmt
    rw [List.get?_eq_getElem?] at hget
    simp [Portal.parameter, h, hget, hf, hsql]
  · intro r h
    by_cases hacc : cap.accepts ty = false
    · simp [Portal.parameter, hacc] at h
    · have hacc2 : cap.accepts ty = true := by
        cases hcb : cap.accepts ty
        · exact absurd hcb hacc
        · rfl
      cases hget : p.parameters.get? idx with
      | none =>
          have hget2 := hget
          rw [List.get?_eq_getElem?] at hget2
          simp [Portal.parameter, hacc2, hget2] at h
      | some param =>
          have hget2 := hget
          rw [List.get?_eq_getElem?] at hget2
          have hidx : idx < p.parameters.length := by
            by_contra hc
            push_neg at hc
            rw [List.get?_eq_none.mpr hc] at hget
            exact Option.noConfusion hget
          cases hfmt : p.parameter_format.format_for idx with
          | none => simp [Portal.parameter, hacc2, hget2, hfmt] at h
          | some f =>
              cases param with
              | none =>
                  simp only [Portal.parameter, hacc2, Bool.true_eq_false,
                    if_false, List.get?_eq_getElem?, hget2, hfmt] at h
                  refine ⟨hacc2, hidx, Or.inl ⟨?_, rfl⟩⟩
                  cases h
                  rfl
              | some b =>
                  cases hsql : cap.from_sql ty b with
                  | none =>
                      simp [Portal.parameter, hacc2, hget2, hfmt, hsql] at h
                  | some v =>
                      simp only [Portal.parameter, hacc2, Bool.true_eq_false,
                        if_false, List.get?_eq_getElem?, hget2, hfmt, hsql] at h
                      refine ⟨hacc2, hidx, Or.inr ⟨b, v, ?_, rfl, hsql⟩⟩
                      cases h
                      rfl

def portal7w : Portal Unit :=
  ⟨[], (), Format.UnifiedText, [some [51]], Format.UnifiedText⟩

/-- Witness for C7: unparseable bytes under a defined format descriptor
yield FailedToParseParameter. -/
theorem claim_C7_witness :
    Portal.parameter cap7 portal7w 0 ty0
      = PRes.error PgWireError.FailedToParseParameter :=
  (claim_C7_parameter_errors cap7 portal7w 0 ty0).2.2.1 [51] (by decide)
    (by decide) (by decide) (by decide)

def portal9 : Portal Unit :=
  ⟨[], (), Format.Individual [0, 1], [none, none, none], Format.UnifiedText⟩

/-- Claim C9 counterexample: an accepting type and an in-bounds NULL
parameter at index 2, but the parameter-format descriptor
Individual([0, 1]) is undefined at 2, so the eager `format_for` call
panics instead of returning Ok(None). -/
theorem claim_C9_counterexample :
    cap7.accepts ty0 = true ∧
    portal9.parameters.get? 2 = some none ∧
    Portal.parameter cap7 portal9 2 ty0 = PRes.panic ∧
    Portal.parameter cap7 portal9 2 ty0 ≠ PRes.ok none := by decide

/-- Claim C9 (amended): for every portal, accepting type and in-bounds
index holding SQL NULL, `Portal::parameter` returns Ok(None) — provided
the parameter-format descriptor is defined at the index (else the eager
`format_for` call panics). -/
theorem claim_C9_null_parameter {S T : Type} (cap : FromSqlCap T)
    (p : Portal S) (idx : Nat) (ty : PgType)
    (hacc : cap.accepts ty = true)
    (hnull : p.parameters.get? idx = some none)
    (hfmt : (p.parameter_format.format_for idx).isSome = true) :
    Portal.parameter cap p idx ty = PRes.ok none := by
  obtain ⟨f, hf⟩ := Option.isSome_iff_exists.mp hfmt
  rw [List.get?_eq_getElem?] at hnull
  simp [Portal.parameter, hacc, hnull, hf]

def portal9w : Portal Unit :=
  ⟨[], (), Format.UnifiedText, [none], Format.UnifiedText⟩

/-- Witness for C9: a NULL parameter under a defined format descriptor. -/
theorem claim_C9_witness :
    Portal.parameter cap7 portal9w 0 ty0 = PRes.ok none :=
  claim_C9_null_parameter cap7 portal9w 0 ty0 (by decide) (by decide) (by decide)
